import Mathlib

/-!
Shallow embedding of the batch-processing engine of
`src/apps/api/src/application/shared/batch/batch-processor.service.ts`.

Items are opaque (`List α`), error messages are `List Char`, JS numbers are
modelled as `Nat`/`Int` (counts can go negative in the source, so the
`succeeded`/`failed` fields are `Int`), and JS rational arithmetic
(average chunk time, percentage) is modelled with `ℚ`.  The injected
processor is modelled by its observable behaviour: a function from the
attempt number to either a thrown error message or the returned list.

A central fact about the source, modelled by `settledProbe`/`schedRun`: the
settled-promise probe at lines 169-172 always resolves to the fulfilled
`'pending'` sentinel (the `.then` wrapper adds a microtask hop), so the
removal loop never splices `activePromises`, concurrency slots are never
freed, and for nonempty items the outer scheduling loop never exits — the
`BatchResult` assembly at lines 180-188 is unreachable.  Per-chunk
execution (`processChunkWithRetry`), the chunk splitter, the error
classifier, and the `.then` aggregation body for admitted chunks all do
run, and are embedded directly from the source.
-/

namespace DafcBatch

/-- Keyword scanned for by `isRetryableError` (source line 429). -/
def kwDeadlock : List Char := "deadlock".toList

/-- Keyword scanned for by `isRetryableError` (source line 430). -/
def kwTimeout : List Char := "timeout".toList

/-- Keyword scanned for by `isRetryableError` (source line 431). -/
def kwConnection : List Char := "connection".toList

/-- Keyword scanned for by `isRetryableError` (source line 432). -/
def kwTooMany : List Char := "too many connections".toList

/-- Keyword scanned for by `isRetryableError` (source line 433). -/
def kwSerialization : List Char := "serialization failure".toList

/-- A non-retryable sample error message, used in concrete runs. -/
def errBoom : List Char := "boom".toList

/-- A sample error message thrown from a progress callback in concrete runs. -/
def errCallback : List Char := "callback exploded".toList

/-- `message?.toLowerCase()` on an error message (source line 427). -/
def toLowerMsg (msg : List Char) : List Char := msg.map Char.toLower

/-- JS `String.prototype.includes(pat)`: does `pat` occur as a contiguous
substring?  Checked at every suffix via `List.isPrefixOf`. -/
def containsStr (pat : List Char) : List Char → Bool
  | [] => pat.isPrefixOf []
  | c :: rest => pat.isPrefixOf (c :: rest) || containsStr pat rest

/-- `isRetryableError` (source lines 426-435): the lower-cased message is
scanned for the five transient-condition keywords. -/
def isRetryableError (msg : List Char) : Bool :=
  let m := toLowerMsg msg
  containsStr kwDeadlock m || containsStr kwTimeout m || containsStr kwConnection m ||
    containsStr kwTooMany m || containsStr kwSerialization m

/-- Decidable equality on `Except`, so concrete runs of the engine can be
checked by evaluation. -/
instance {ε β : Type} [DecidableEq ε] [DecidableEq β] : DecidableEq (Except ε β) := fun x y =>
  match x, y with
  | Except.error a, Except.error b =>
      if h : a = b then Decidable.isTrue (congrArg Except.error h)
      else Decidable.isFalse (fun hc => h (Except.error.inj hc))
  | Except.error _, Except.ok _ => Decidable.isFalse (fun hc => Except.noConfusion hc)
  | Except.ok _, Except.error _ => Decidable.isFalse (fun hc => Except.noConfusion hc)
  | Except.ok a, Except.ok b =>
      if h : a = b then Decidable.isTrue (congrArg Except.ok h)
      else Decidable.isFalse (fun hc => h (Except.ok.inj hc))

/-- `BatchError` (source lines 53-58). -/
structure BatchError (α : Type) where
  index : Nat
  item : α
  error : List Char
  retryable : Bool
deriving DecidableEq

/-- `ChunkResult` (source lines 44-51).  `succeeded`/`failed` are `Int`
because the source computes `chunk.length - results.length`, which is
negative when a processor returns more values than the chunk holds. -/
structure ChunkResult (α : Type) where
  chunkIndex : Nat
  items : List α
  succeeded : Int
  failed : Int
  errors : List (BatchError α)
  duration : Nat
deriving DecidableEq

/-- The error-synthesis loop of `processChunkWithRetry` (source lines
399-406): one `BatchError` per item of the chunk, indexed by
`chunkIndex * chunk.length + i`. -/
def chunkErrors (chunk : List α) (chunkIndex : Nat) (msg : List Char) (retryable : Bool) :
    List (BatchError α) :=
  chunk.enum.map (fun p =>
    { index := chunkIndex * chunk.length + p.1, item := p.2, error := msg,
      retryable := retryable })

/-- The retry loop of `processChunkWithRetry` (source lines 382-414),
rendered with an explicit iteration bound (`fuel`); the caller passes
`retries + 1`, which the `for` loop never exceeds.  The second component of
the result is the trace of backoff waits `retryDelay * (attempt + 1)`
performed at source line 411.  `dur` is the wall-clock duration the source
measures with `Date.now()`. -/
def retryLoop (chunk : List α) (chunkIndex : Nat)
    (attemptsF : Nat → Except (List Char) (List ρ)) (retries retryDelay dur : Nat) :
    Nat → Nat → List Nat → ChunkResult α × List Nat
  | 0, _, waits =>
      ({ chunkIndex := chunkIndex, items := chunk, succeeded := 0,
         failed := (chunk.length : Int), errors := [], duration := dur }, waits)
  | fuel + 1, attempt, waits =>
      if attempt ≤ retries then
        match attemptsF attempt with
        | Except.ok results =>
            ({ chunkIndex := chunkIndex, items := chunk, succeeded := (results.length : Int),
               failed := (chunk.length : Int) - (results.length : Int), errors := [],
               duration := dur }, waits)
        | Except.error e =>
            if isRetryableError e = false ∨ attempt = retries then
              ({ chunkIndex := chunkIndex, items := chunk, succeeded := 0,
                 failed := (chunk.length : Int),
                 errors := chunkErrors chunk chunkIndex e (isRetryableError e),
                 duration := dur }, waits)
            else
              retryLoop chunk chunkIndex attemptsF retries retryDelay dur fuel (attempt + 1)
                (waits ++ [retryDelay * (attempt + 1)])
      else
        ({ chunkIndex := chunkIndex, items := chunk, succeeded := 0,
           failed := (chunk.length : Int), errors := [], duration := dur }, waits)

/-- `processChunkWithRetry` (source lines 371-424): run the retry loop from
attempt 0 with an empty wait trace. -/
def processChunkWithRetry (chunk : List α) (chunkIndex : Nat)
    (attemptsF : Nat → Except (List Char) (List ρ)) (retries retryDelay dur : Nat) :
    ChunkResult α × List Nat :=
  retryLoop chunk chunkIndex attemptsF retries retryDelay dur (retries + 1) 0 []

/-- The chunk-splitting loop of `processBatch` (source lines 107-110):
`items.slice(i, i + chunkSize)` for `i = 0, S, 2S, ...`, rendered as
take/drop recursion with an iteration bound.  For `chunkSize ≥ 1` the bound
`items.length` is never reached (each step drops at least one item); for
`chunkSize ≤ 0` the source loop does not terminate at all, which is
modelled separately by `chunkerIter` below. -/
def chunkLoop (S : Nat) : Nat → List α → List (List α)
  | 0, _ => []
  | _ + 1, [] => []
  | fuel + 1, x :: xs => ((x :: xs).take S) :: chunkLoop S fuel ((x :: xs).drop S)

/-- The chunk list built by `processBatch` (source lines 107-110). -/
def chunkList (items : List α) (S : Nat) : List (List α) :=
  chunkLoop S items.length items

/-- `BatchProgress` (source lines 33-42).  `percentage` is the result of
`Math.round`, and `estimatedTimeRemaining` keeps the exact rational value
of `remainingChunks * avgChunkTime`. -/
structure BatchProgress where
  total : Nat
  processed : Nat
  succeeded : Int
  failed : Int
  percentage : Int
  currentChunk : Nat
  totalChunks : Nat
  estimatedTimeRemaining : ℚ
deriving DecidableEq

/-- `Math.round` on a non-negative rational: floor of `q + 1/2`. -/
def jsRound (q : ℚ) : Int := (q + 1 / 2).floor

/-- The mutable aggregation state of `processBatch` (source lines 100-114):
`processedChunks`, `succeeded`, `failed`, `allErrors`, `chunkTimes` and the
`allResults` array (which the source declares and returns but never
writes to). -/
structure AggState (α ρ : Type) where
  processedChunks : Nat
  succeeded : Int
  failed : Int
  allErrors : List (BatchError α)
  chunkTimes : List Nat
  allResults : List ρ
deriving DecidableEq

/-- The initial aggregation state (source lines 100-113). -/
def initAgg (α ρ : Type) : AggState α ρ := ⟨0, 0, 0, [], [], []⟩

/-- The body of the `.then` continuation folding one `ChunkResult` into the
aggregation state (source lines 136-156), returning the updated state and
the `BatchProgress` snapshot handed to `onProgress`. -/
def aggregateStep (total totalChunks chunkSize : Nat) (st : AggState α ρ)
    (r : ChunkResult α) : AggState α ρ × BatchProgress :=
  let st2 : AggState α ρ :=
    { processedChunks := st.processedChunks + 1
      succeeded := st.succeeded + r.succeeded
      failed := st.failed + r.failed
      allErrors := st.allErrors ++ r.errors
      chunkTimes := st.chunkTimes ++ [r.duration]
      allResults := st.allResults }
  let avgChunkTime : ℚ := ((st2.chunkTimes.sum : Nat) : ℚ) / ((st2.chunkTimes.length : Nat) : ℚ)
  let remainingChunks : Nat := totalChunks - st2.processedChunks
  (st2,
    { total := total
      processed := st2.processedChunks * chunkSize
      succeeded := st2.succeeded
      failed := st2.failed
      percentage := jsRound (((st2.processedChunks : ℚ) / (totalChunks : ℚ)) * 100)
      currentChunk := st2.processedChunks
      totalChunks := totalChunks
      estimatedTimeRemaining := (remainingChunks : ℚ) * avgChunkTime })

/-- Fold a list of chunk results (in completion order) through
`aggregateStep`, invoking the `onProgress` callback on each snapshot.  A
callback that throws rejects the chunk's promise, which `processBatch`
awaits, so the thrown error propagates and aborts the whole run
(source lines 147-156 have no try/catch around `onProgress`).  On success
it returns the final state together with the trace of snapshots. -/
def aggRun (total totalChunks chunkSize : Nat)
    (cb : BatchProgress → Except (List Char) Unit) :
    List (ChunkResult α) → AggState α ρ →
    Except (List Char) (AggState α ρ × List BatchProgress)
  | [], st => Except.ok (st, [])
  | r :: rest, st =>
      let p := aggregateStep total totalChunks chunkSize st r
      match cb p.2 with
      | Except.error e => Except.error e
      | Except.ok _ =>
          match aggRun total totalChunks chunkSize cb rest p.1 with
          | Except.error e => Except.error e
          | Except.ok (stF, ps) => Except.ok (stF, p.2 :: ps)

/-- `BatchResult` (source lines 60-68). -/
structure BatchResult (α ρ : Type) where
  success : Bool
  total : Nat
  succeeded : Int
  failed : Int
  errors : List (BatchError α)
  duration : Nat
  results : List ρ
deriving DecidableEq

/-- The final result assembly of `processBatch` (source lines 180-188):
`success` iff `failed === 0`, errors truncated to 100, and `results` is the
(never-written) `allResults` array. -/
def mkBatchResult (total totalDur : Nat) (st : AggState α ρ) : BatchResult α ρ :=
  { success := decide (st.failed = 0), total := total, succeeded := st.succeeded,
    failed := st.failed, errors := st.allErrors.take 100, duration := totalDur,
    results := st.allResults }

/-- The chunk results of a job, in chunk-index order: each chunk of
`chunkList` is run through `processChunkWithRetry` (source lines 130-136).
`attemptsF i a` is the processor's observable behaviour on chunk `i` at
attempt `a`; `durs i` is the measured duration of chunk `i`. -/
def execChunks (items : List α) (chunkSize : Nat)
    (attemptsF : Nat → Nat → Except (List Char) (List ρ))
    (retries retryDelay : Nat) (durs : Nat → Nat) : List (ChunkResult α) :=
  (chunkList items chunkSize).enum.map
    (fun p => (processChunkWithRetry p.2 p.1 (attemptsF p.1) retries retryDelay (durs p.1)).1)

/-- The aggregation pipeline of `processBatch` (source lines 85-189): split
into chunks, run chunks through the retry executor, fold the `ChunkResult`s
of the chunks listed in `order` through the `.then` aggregation body in
that order, and assemble the `BatchResult`.  The snapshot trace of
`onProgress` calls is returned alongside.

Caveat on reachability: in the source the scheduling loop never terminates
for nonempty `items` — the settled-promise probe at lines 169-172 always
loses to the fulfilled `'pending'` sentinel, so `activePromises` is never
spliced and the loop guard at line 120 never fails (see `settledProbe`,
`schedRun` and the C1/C10 theorems).  Real executions therefore only ever
fold the results of the at most `concurrency` chunks admitted by the first
fill, and the `Except.ok` branch here (the result assembly at lines
180-188) is reachable only for an empty job.  The `.then` continuations of
admitted chunks *do* run, so the snapshot trace for admitted chunks and the
`Except.error` path (a callback throw rejecting the awaited race) model
actually occurring behaviour. -/
def processBatchWithOrder (items : List α) (chunkSize : Nat)
    (attemptsF : Nat → Nat → Except (List Char) (List ρ))
    (retries retryDelay : Nat) (durs : Nat → Nat) (totalDur : Nat)
    (cb : BatchProgress → Except (List Char) Unit) (order : List Nat) :
    Except (List Char) (BatchResult α ρ × List BatchProgress) :=
  match aggRun items.length (chunkList items chunkSize).length chunkSize cb
      (order.filterMap (fun i => (execChunks items chunkSize attemptsF retries retryDelay durs)[i]?))
      (initAgg α ρ) with
  | Except.error e => Except.error e
  | Except.ok (st, snaps) => Except.ok (mkBatchResult items.length totalDur st, snaps)

/-- A progress callback that never throws (the well-behaved case). -/
def cbOk : BatchProgress → Except (List Char) Unit := fun _ => Except.ok ()

/-- JS `Array.prototype.slice(start, stop)` including the negative-index
normalization, needed to model the chunk-splitting loop at arbitrary
(possibly non-positive) chunk sizes. -/
def jsSlice (items : List α) (start stop : Int) : List α :=
  let len : Int := items.length
  let s : Int := if start < 0 then max (len + start) 0 else min start len
  let e : Int := if stop < 0 then max (len + stop) 0 else min stop len
  (items.drop s.toNat).take (e - s).toNat

/-- The loop state of the chunk-splitting `for` loop (source lines
107-110): the index `i` and the `chunks` array built so far. -/
structure ChunkerState (α : Type) where
  i : Int
  chunks : List (List α)
deriving DecidableEq

/-- `n` iterations of the chunk-splitting loop `for (let i = 0; i <
items.length; i += chunkSize) chunks.push(items.slice(i, i + chunkSize))`
at step `S`, stopping early if the guard fails.  This models the source
loop faithfully at every integer chunk size, including `S ≤ 0` where the
guard never fails. -/
def chunkerIter (items : List α) (S : Int) : Nat → ChunkerState α → ChunkerState α
  | 0, st => st
  | n + 1, st =>
      if st.i < (items.length : Int) then
        chunkerIter items S n
          ⟨st.i + S, st.chunks ++ [jsSlice items st.i (st.i + S)]⟩
      else st

/-- State of the concurrency scheduler of `processBatch` (source lines
116-178): `queue` is `processingQueue` (pending chunk indices in index
order), `active` the chunk indices with a promise in `activePromises`, and
`admitted` the trace of admissions. -/
structure SchedState where
  queue : List Nat
  active : List Nat
  admitted : List Nat
deriving DecidableEq

/-- Initial scheduler state: all chunk indices pending, none running
(source lines 117-118). -/
def initSched (n : Nat) : SchedState :=
  ⟨List.range n, [], []⟩

/-- The admission loop (source lines 127-162): `while (processingQueue.length
> 0 && activePromises.length < concurrency)` shift the next chunk and start
it. -/
def fill (C : Nat) : List Nat → List Nat → List Nat → SchedState
  | [], active, adm => ⟨[], active, adm⟩
  | q :: qs, active, adm =>
      if active.length < C then fill C qs (active ++ [q]) (adm ++ [q])
      else ⟨q :: qs, active, adm⟩

/-- `fill` applied to a scheduler state. -/
def fillSt (C : Nat) (st : SchedState) : SchedState :=
  fill C st.queue st.active st.admitted

/-- Outcome of the settled-promise probe at source lines 169-172,
`Promise.race([activePromises[i].then(() => 'resolved'),
Promise.resolve('pending')])`: the `.then` wrapper returns a fresh pending
promise and only enqueues its reaction as a microtask, while the
`'pending'` sentinel is already fulfilled, so by ECMA-262 job ordering the
sentinel's race reaction always settles the race first.  The probe
therefore yields `'pending'` (here `false`, "not observed as resolved")
regardless of whether the chunk's promise has settled — its argument is
ignored exactly as the program ignores the actual settled state. -/
def settledProbe (_settled : Bool) : Bool := false

/-- The removal loop at source lines 168-176: walk `activePromises` and
splice out index `i` when the probe reports it resolved.  `settled i` says
whether chunk `i`'s promise has actually settled; since the probe never
reports resolved, nothing is ever removed. -/
def removalLoop (active : List Nat) (settled : Nat → Bool) : List Nat :=
  active.filter (fun i => !settledProbe (settled i))

/-- One iteration of the outer scheduling loop (source lines 120-178) on a
run where no abort is signalled and no admitted promise rejects: fill up to
the concurrency limit (lines 127-162), `await Promise.race` (line 166,
no state change), then run the removal loop (lines 168-176). -/
def schedLoopStep (C : Nat) (settled : Nat → Bool) (st : SchedState) : SchedState :=
  ⟨(fillSt C st).queue, removalLoop (fillSt C st).active settled, (fillSt C st).admitted⟩

/-- `k` iterations of the outer scheduling loop on a job of `n` chunks
under concurrency limit `C`, with `settled` giving each chunk's actual
settled state as seen by the removal loop's probes. -/
def schedRun (C : Nat) (settled : Nat → Bool) (n : Nat) : Nat → SchedState
  | 0 => initSched n
  | k + 1 => schedLoopStep C settled (schedRun C settled n k)

theorem chunkLoop_join {α : Type} (S : Nat) (hS : 0 < S) :
    ∀ (fuel : Nat) (items : List α), items.length ≤ fuel →
      (chunkLoop S fuel items).flatten = items := by
  intro fuel
  induction fuel with
  | zero =>
      intro items h
      have : items = [] := List.eq_nil_of_length_eq_zero (by omega)
      subst this
      simp [chunkLoop]
  | succ fuel ih =>
      intro items h
      cases items with
      | nil => simp [chunkLoop]
      | cons x xs =>
          simp only [List.length_cons] at h
          rw [chunkLoop, List.flatten_cons,
            ih ((x :: xs).drop S) (by simp only [List.length_drop, List.length_cons]; omega)]
          exact List.take_append_drop S (x :: xs)

theorem chunkLoop_length {α : Type} (S : Nat) (hS : 0 < S) :
    ∀ (fuel : Nat) (items : List α), items.length ≤ fuel →
      (chunkLoop S fuel items).length = (items.length + S - 1) / S := by
  intro fuel
  induction fuel with
  | zero =>
      intro items h
      have : items = [] := List.eq_nil_of_length_eq_zero (by omega)
      subst this
      simp [chunkLoop]
      exact (Nat.div_eq_of_lt (by omega)).symm
  | succ fuel ih =>
      intro items h
      cases items with
      | nil =>
          simp [chunkLoop]
          exact (Nat.div_eq_of_lt (by omega)).symm
      | cons x xs =>
          simp only [List.length_cons] at h
          rw [chunkLoop, List.length_cons,
            ih ((x :: xs).drop S) (by simp only [List.length_drop, List.length_cons]; omega)]
          have hlen : ((x :: xs).drop S).length = xs.length + 1 - S := by simp
          rw [hlen]
          simp only [List.length_cons]
          have hN : 1 ≤ xs.length + 1 := by omega
          rcases le_or_lt S (xs.length + 1) with hSN | hSN
          · have h2 : xs.length + 1 - S + S - 1 = xs.length + 1 - 1 := by omega
            have h3 : xs.length + 1 + S - 1 = (xs.length + 1 - 1) + S := by omega
            rw [h2, h3, Nat.add_div_right _ hS]
          · have h2 : xs.length + 1 - S = 0 := by omega
            have h3 : xs.length + 1 + S - 1 = (xs.length + 1 - 1) + S := by omega
            rw [h2, h3, Nat.add_div_right _ hS]
            have h4 : (xs.length + 1 - 1) / S = 0 := Nat.div_eq_of_lt (by omega)
            have h5 : (0 + S - 1) / S = 0 := Nat.div_eq_of_lt (by omega)
            rw [h4, h5]

theorem chunkLoop_mem {α : Type} (S : Nat) (hS : 0 < S) :
    ∀ (fuel : Nat) (items : List α), items.length ≤ fuel →
      ∀ c ∈ chunkLoop S fuel items, 0 < c.length ∧ c.length ≤ S := by
  intro fuel
  induction fuel with
  | zero =>
      intro items h c hc
      have : items = [] := List.eq_nil_of_length_eq_zero (by omega)
      subst this
      simp [chunkLoop] at hc
  | succ fuel ih =>
      intro items h c hc
      cases items with
      | nil => simp [chunkLoop] at hc
      | cons x xs =>
          simp only [List.length_cons] at h
          rw [chunkLoop] at hc
          rcases List.mem_cons.mp hc with hc | hc
          · subst hc
            simp [List.length_take]
            omega
          · exact ih ((x :: xs).drop S)
              (by simp only [List.length_drop, List.length_cons]; omega) c hc

theorem chunkLoop_nil {α : Type} (S : Nat) : ∀ fuel, chunkLoop S fuel ([] : List α) = [] := by
  intro fuel
  cases fuel <;> simp [chunkLoop]

theorem chunkLoop_get {α : Type} (S : Nat) (hS : 0 < S) :
    ∀ (fuel : Nat) (items : List α), items.length ≤ fuel →
      ∀ i : Nat, i + 1 < (chunkLoop S fuel items).length →
        ((chunkLoop S fuel items).getD i []).length = S := by
  intro fuel
  induction fuel with
  | zero =>
      intro items h i hi1
      have : items = [] := List.eq_nil_of_length_eq_zero (by omega)
      subst this
      simp [chunkLoop] at hi1
  | succ fuel ih =>
      intro items h i hi1
      cases items with
      | nil => simp [chunkLoop] at hi1
      | cons x xs =>
          simp only [List.length_cons] at h
          cases i with
          | zero =>
              rw [chunkLoop] at hi1 ⊢
              simp only [List.length_cons] at hi1
              have hrest : chunkLoop S fuel ((x :: xs).drop S) ≠ [] := by
                intro hcon
                rw [hcon] at hi1
                simp at hi1
              have hdrop : (x :: xs).drop S ≠ [] := by
                intro hcon
                rw [hcon, chunkLoop_nil] at hrest
                exact hrest rfl
              have hlen : S < xs.length + 1 := by
                by_contra hcon
                push_neg at hcon
                apply hdrop
                apply List.eq_nil_of_length_eq_zero
                simp
                omega
              simp [List.length_take]
              omega
          | succ i =>
              rw [chunkLoop] at hi1 ⊢
              simp only [List.length_cons, Nat.add_lt_add_iff_right] at hi1
              rw [List.getD_cons_succ]
              exact ih ((x :: xs).drop S)
                (by simp only [List.length_drop, List.length_cons]; omega) i hi1

/-- C2: for every item list and every chunk size `S ≥ 1`, the chunker
produces exactly `ceil(N/S) = (N + S - 1) / S` chunks, every chunk but the
last has length exactly `S` (the last is nonempty and at most `S` long),
and concatenating the chunks in index order reproduces the input exactly. -/
theorem c2_chunker_correct {α : Type} (items : List α) (S : Nat) (hS : 0 < S) :
    (chunkList items S).length = (items.length + S - 1) / S ∧
    (chunkList items S).flatten = items ∧
    (∀ i : Nat, i + 1 < (chunkList items S).length →
      ((chunkList items S).getD i []).length = S) ∧
    (∀ c ∈ chunkList items S, 0 < c.length ∧ c.length ≤ S) :=
  ⟨chunkLoop_length S hS items.length items le_rfl,
   chunkLoop_join S hS items.length items le_rfl,
   chunkLoop_get S hS items.length items le_rfl,
   chunkLoop_mem S hS items.length items le_rfl⟩

/-- C2 witness: a concrete 3-item job with chunk size 2. -/
theorem c2_chunker_correct_witness :
    (chunkList ([1, 2, 3] : List Nat) 2).flatten = [1, 2, 3] :=
  (c2_chunker_correct [1, 2, 3] 2 (by decide)).2.1

/-- C4: at the failing input — the job `[10, 20, 30]` with chunk size 2,
whose last chunk `[30]` (chunk index 1) fails terminally — the synthesized
`BatchError` carries index `chunkIndex * chunk.length + i = 1 * 1 + 0 = 1`,
but the item `30` sits at global index 2 of the original input.  The index
formula uses the (possibly shorter) chunk's own length instead of the
configured chunk size, so it is not the global item index. -/
theorem c4_global_index_bug :
    (processChunkWithRetry [(30 : Nat)] 1
        (fun _ => (Except.error errBoom : Except (List Char) (List Nat))) 2 1000 7).1.errors =
      [⟨1, 30, errBoom, false⟩] ∧
    chunkList ([10, 20, 30] : List Nat) 2 = [[10, 20], [30]] ∧
    ([10, 20, 30] : List Nat)[2]? = some 30 := by
  decide

/-- C6: at the failing input — 3 items with chunk size 2, both chunks
succeeding in index order — the second progress snapshot reports
`processed = processedChunks * chunkSize = 4` although only 3 items exist
and `succeeded + failed = 3`; the `processed` field overcounts whenever the
short last chunk has been folded in. -/
theorem c6_processed_overcount :
    (processBatchWithOrder ([10, 20, 30] : List Nat) 2
        (fun i _ => if i = 0 then (Except.ok [0, 0] : Except (List Char) (List Nat))
          else Except.ok [0]) 2 1000 (fun _ => 4) 0 cbOk [0, 1]).toOption.map
      (fun p => p.2.map (fun q => (q.processed, q.succeeded + q.failed))) =
    some [(2, 2), (4, 3)] := by
  decide

theorem chunkerIter_stuck (x : Nat) :
    ∀ (n : Nat) (acc : List (List Nat)),
      chunkerIter [x] 0 n ⟨0, acc⟩ = ⟨0, acc ++ List.replicate n []⟩ := by
  intro n
  induction n with
  | zero => intro acc; simp [chunkerIter]
  | succ n ih =>
      intro acc
      rw [chunkerIter]
      have hguard : ((0 : Int) < (([x] : List Nat).length : Int)) := by simp
      rw [if_pos hguard]
      have hsl : jsSlice [x] (0 : Int) ((0 : Int) + 0) = ([] : List Nat) := by
        simp [jsSlice]
      rw [show ((0 : Int) + 0) = (0 : Int) by ring] at hsl ⊢
      rw [hsl, ih (acc ++ [[]])]
      simp [List.replicate_succ]

/-- C7: `processBatch` performs no validation of the chunk size.  At the
failing input (one item, `chunkSize = 0`) the chunk-splitting loop's guard
`i < items.length` still holds after any number of iterations — the index
never advances — so the loop never terminates, never throws, and keeps
pushing empty chunks. -/
theorem c7_chunk_size_not_validated (n : Nat) :
    (chunkerIter ([42] : List Nat) 0 n ⟨0, []⟩).i < (([42] : List Nat).length : Int) ∧
    (chunkerIter ([42] : List Nat) 0 n ⟨0, []⟩).chunks = List.replicate n [] := by
  rw [chunkerIter_stuck 42 n []]
  constructor
  · simp
  · simp

theorem retryLoop_sum {α ρ : Type} (chunk : List α) (chunkIndex : Nat)
    (F : Nat → Except (List Char) (List ρ)) (retries retryDelay dur : Nat) :
    ∀ (fuel attempt : Nat) (waits : List Nat),
      (retryLoop chunk chunkIndex F retries retryDelay dur fuel attempt waits).1.succeeded +
        (retryLoop chunk chunkIndex F retries retryDelay dur fuel attempt waits).1.failed =
      (chunk.length : Int) := by
  intro fuel
  induction fuel with
  | zero => intro attempt waits; simp [retryLoop]
  | succ fuel ih =>
      intro attempt waits
      rw [retryLoop]
      by_cases hat : attempt ≤ retries
      · rw [if_pos hat]
        cases hF : F attempt with
        | ok results => simp
        | error e =>
            dsimp only
            by_cases hbr : isRetryableError e = false ∨ attempt = retries
            · rw [if_pos hbr]; simp
            · rw [if_neg hbr]; exact ih attempt.succ (waits ++ [retryDelay * (attempt + 1)])
      · rw [if_neg hat]; simp

theorem processChunk_sum {α ρ : Type} (chunk : List α) (chunkIndex : Nat)
    (F : Nat → Except (List Char) (List ρ)) (retries retryDelay dur : Nat) :
    (processChunkWithRetry chunk chunkIndex F retries retryDelay dur).1.succeeded +
      (processChunkWithRetry chunk chunkIndex F retries retryDelay dur).1.failed =
    (chunk.length : Int) :=
  retryLoop_sum chunk chunkIndex F retries retryDelay dur (retries + 1) 0 []

theorem retryLoop_ok_run {α ρ : Type} (chunk : List α) (chunkIndex : Nat)
    (F : Nat → Except (List Char) (List ρ)) (retries retryDelay dur k : Nat)
    (res : List ρ) (errs : Nat → List Char)
    (hok : F k = Except.ok res) (hkr : k ≤ retries)
    (hfail : ∀ a, a < k → F a = Except.error (errs a) ∧ isRetryableError (errs a) = true) :
    ∀ (fuel j : Nat) (waits : List Nat), j ≤ k → k + 1 - j ≤ fuel →
      retryLoop chunk chunkIndex F retries retryDelay dur fuel j waits =
        ({ chunkIndex := chunkIndex, items := chunk, succeeded := (res.length : Int),
           failed := (chunk.length : Int) - (res.length : Int), errors := [],
           duration := dur },
         waits ++ (List.range' j (k - j)).map (fun a => retryDelay * (a + 1))) := by
  intro fuel
  induction fuel with
  | zero => intro j waits hj hfuel; omega
  | succ fuel ih =>
      intro j waits hj hfuel
      rw [retryLoop, if_pos (le_trans hj hkr)]
      rcases eq_or_lt_of_le hj with hjk | hjk
      · subst hjk
        rw [hok]
        simp
      · obtain ⟨hFj, hRj⟩ := hfail j hjk
        rw [hFj]
        dsimp only
        rw [if_neg (by simp [hRj]; omega)]
        rw [ih (j + 1) (waits ++ [retryDelay * (j + 1)]) (by omega) (by omega)]
        rw [List.append_assoc]
        have hkj : k - j = (k - (j + 1)) + 1 := by omega
        rw [hkj, List.range'_succ]
        simp

/-- C3: if the processor fails with a retryable error on every attempt
before attempt `k ≤ retries` and succeeds at attempt `k` returning a whole
chunk's worth of values, then the chunk result reports all items succeeded,
zero failed, no errors, and exactly `k` backoff waits of durations
`retryDelay * 1, ..., retryDelay * k` (the wait after 0-based failed
attempt `a` being `retryDelay * (a + 1)`). -/
theorem c3_linear_backoff {α ρ : Type} (chunk : List α) (chunkIndex : Nat)
    (F : Nat → Except (List Char) (List ρ)) (retries retryDelay dur k : Nat)
    (res : List ρ) (errs : Nat → List Char)
    (hok : F k = Except.ok res) (hkr : k ≤ retries) (hres : res.length = chunk.length)
    (hfail : ∀ a, a < k → F a = Except.error (errs a) ∧ isRetryableError (errs a) = true) :
    (processChunkWithRetry chunk chunkIndex F retries retryDelay dur).1.succeeded =
        (chunk.length : Int) ∧
    (processChunkWithRetry chunk chunkIndex F retries retryDelay dur).1.failed = 0 ∧
    (processChunkWithRetry chunk chunkIndex F retries retryDelay dur).1.errors = [] ∧
    (processChunkWithRetry chunk chunkIndex F retries retryDelay dur).2 =
        (List.range k).map (fun a => retryDelay * (a + 1)) ∧
    (processChunkWithRetry chunk chunkIndex F retries retryDelay dur).2.length = k := by
  have h := retryLoop_ok_run chunk chunkIndex F retries retryDelay dur k res errs hok hkr hfail
    (retries + 1) 0 [] (by omega) (by omega)
  unfold processChunkWithRetry
  rw [h]
  refine ⟨by rw [hres], by rw [hres]; exact sub_self _, rfl, ?_, ?_⟩
  · rw [List.range_eq_range']
    simp
  · simp

/-- C3 witness: a 2-item chunk failing with a timeout on attempts 1 and 2
and succeeding on attempt 3 performs exactly the waits `[100, 200]` for
`retryDelay = 100`. -/
theorem c3_linear_backoff_witness :
    (processChunkWithRetry [(5 : Nat), 6] 0
        (fun a => if a < 2 then (Except.error kwTimeout : Except (List Char) (List Nat))
          else Except.ok [7, 8]) 2 100 3).2 = [100, 200] :=
  ((c3_linear_backoff [(5 : Nat), 6] 0
      (fun a => if a < 2 then (Except.error kwTimeout : Except (List Char) (List Nat))
        else Except.ok [7, 8]) 2 100 3 2 [7, 8] (fun _ => kwTimeout)
      rfl (by decide) (by decide)
      (by intro a ha; interval_cases a <;> exact ⟨rfl, by decide⟩)).2.2.2.1).trans (by decide)

theorem aggregateStep_succeeded {α ρ : Type} (total totalChunks chunkSize : Nat)
    (st : AggState α ρ) (r : ChunkResult α) :
    (aggregateStep total totalChunks chunkSize st r).1.succeeded =
      st.succeeded + r.succeeded := rfl

theorem aggregateStep_failed {α ρ : Type} (total totalChunks chunkSize : Nat)
    (st : AggState α ρ) (r : ChunkResult α) :
    (aggregateStep total totalChunks chunkSize st r).1.failed = st.failed + r.failed := rfl

theorem aggregateStep_allResults {α ρ : Type} (total totalChunks chunkSize : Nat)
    (st : AggState α ρ) (r : ChunkResult α) :
    (aggregateStep total totalChunks chunkSize st r).1.allResults = st.allResults := rfl

theorem aggRun_sums {α ρ : Type} (total totalChunks chunkSize : Nat)
    (cb : BatchProgress → Except (List Char) Unit) :
    ∀ (completed : List (ChunkResult α)) (st stF : AggState α ρ) (ps : List BatchProgress),
      aggRun total totalChunks chunkSize cb completed st = Except.ok (stF, ps) →
      stF.succeeded = st.succeeded + (completed.map (fun r => r.succeeded)).sum ∧
      stF.failed = st.failed + (completed.map (fun r => r.failed)).sum ∧
      stF.allResults = st.allResults := by
  intro completed
  induction completed with
  | nil =>
      intro st stF ps h
      simp only [aggRun, Except.ok.injEq, Prod.mk.injEq] at h
      obtain ⟨h1, h2⟩ := h
      subst h1
      simp
  | cons r rest ih =>
      intro st stF ps h
      simp only [aggRun] at h
      cases hcb : cb (aggregateStep total totalChunks chunkSize st r).2 with
      | error e => rw [hcb] at h; simp at h
      | ok u =>
          rw [hcb] at h
          dsimp only at h
          cases hrec : aggRun total totalChunks chunkSize cb rest
              (aggregateStep total totalChunks chunkSize st r).1 with
          | error e => rw [hrec] at h; simp at h
          | ok pr =>
              obtain ⟨stF2, ps2⟩ := pr
              rw [hrec] at h
              simp only [Except.ok.injEq, Prod.mk.injEq] at h
              obtain ⟨h1, h2⟩ := h
              subst h1
              obtain ⟨hs, hf, hr⟩ := ih _ _ _ hrec
              refine ⟨?_, ?_, ?_⟩
              · rw [hs, aggregateStep_succeeded]
                simp only [List.map_cons, List.sum_cons]
                omega
              · rw [hf, aggregateStep_failed]
                simp only [List.map_cons, List.sum_cons]
                omega
              · rw [hr, aggregateStep_allResults]

theorem execChunks_length {α ρ : Type} (items : List α) (chunkSize : Nat)
    (F : Nat → Nat → Except (List Char) (List ρ)) (retries retryDelay : Nat)
    (durs : Nat → Nat) :
    (execChunks items chunkSize F retries retryDelay durs).length =
      (chunkList items chunkSize).length := by
  simp [execChunks]

/-- C5: the processor's return values are discarded.  `allResults` starts
empty and the `.then` aggregation body — the only code that runs when a
chunk completes, embedded by `aggregateStep`/`aggRun` — never appends to it
(a `ChunkResult` does not even carry the processor's return values), so
after folding any sequence of chunk results `allResults` is still `[]`,
and the result assembly at line 187 (itself unreachable for nonempty jobs,
see the C1 theorem) would copy exactly this empty list into `results`,
never the concatenation of the per-chunk return lists that the claim
describes. -/
theorem c5_results_never_populated {α ρ : Type} (total totalChunks chunkSize totalDur : Nat)
    (cb : BatchProgress → Except (List Char) Unit)
    (completed : List (ChunkResult α)) (stF : AggState α ρ) (ps : List BatchProgress)
    (h : aggRun total totalChunks chunkSize cb completed (initAgg α ρ) = Except.ok (stF, ps)) :
    stF.allResults = [] ∧ (mkBatchResult total totalDur stF).results = [] := by
  obtain ⟨-, -, hr⟩ := aggRun_sums total totalChunks chunkSize cb completed _ _ _ h
  constructor
  · rw [hr]; rfl
  · show stF.allResults = []
    rw [hr]; rfl

/-- C5 witness: folding the chunk result of a fully successful single-chunk
job whose processor returned the two values `[7, 8]` still leaves
`allResults` — and hence the assembled `results` — empty. -/
theorem c5_results_never_populated_witness :
    ((aggregateStep 2 1 2 (initAgg Nat Nat)
        (processChunkWithRetry [(10 : Nat), 20] 0
          (fun _ => (Except.ok [7, 8] : Except (List Char) (List Nat))) 2 1000 3).1).1.allResults
      = ([] : List Nat)) ∧
    (mkBatchResult 2 0 (aggregateStep 2 1 2 (initAgg Nat Nat)
        (processChunkWithRetry [(10 : Nat), 20] 0
          (fun _ => (Except.ok [7, 8] : Except (List Char) (List Nat))) 2 1000 3).1).1).results
      = ([] : List Nat) :=
  c5_results_never_populated 2 1 2 0 cbOk
    [(processChunkWithRetry [(10 : Nat), 20] 0
        (fun _ => (Except.ok [7, 8] : Except (List Char) (List Nat))) 2 1000 3).1]
    (aggregateStep 2 1 2 (initAgg Nat Nat)
      (processChunkWithRetry [(10 : Nat), 20] 0
        (fun _ => (Except.ok [7, 8] : Except (List Char) (List Nat))) 2 1000 3).1).1
    [(aggregateStep 2 1 2 (initAgg Nat Nat)
      (processChunkWithRetry [(10 : Nat), 20] 0
        (fun _ => (Except.ok [7, 8] : Except (List Char) (List Nat))) 2 1000 3).1).2]
    rfl

theorem aggRun_cons_error {α ρ : Type} (total totalChunks chunkSize : Nat) (e : List Char)
    (r : ChunkResult α) (rest : List (ChunkResult α)) (st : AggState α ρ) :
    aggRun total totalChunks chunkSize (fun _ => Except.error e) (r :: rest) st =
      Except.error e := by
  simp [aggRun]

theorem chunkList_cons {α : Type} (x : α) (xs : List α) (S : Nat) :
    chunkList (x :: xs) S =
      ((x :: xs).take S) :: chunkLoop S xs.length ((x :: xs).drop S) := rfl

/-- C8 counterexample: a job of two chunks whose `onProgress` callback
throws.  `processBatch` does not isolate the exception: it rejects with the
callback's error and never returns a `BatchResult`, contradicting the
claim that the batch continues and completes. -/
theorem c8_callback_not_isolated_cex :
    processBatchWithOrder ([1, 2, 3, 4] : List Nat) 2
        (fun _ _ => (Except.ok [0, 0] : Except (List Char) (List Nat))) 2 1000 (fun _ => 1) 0
        (fun _ => Except.error errCallback) [0, 1] = Except.error errCallback := rfl

/-- C8 amended: a throwing `onProgress` callback is not isolated — the
exception propagates out of the aggregation path (there is no try/catch
around the callback), so `processBatch` aborts with the callback's error
and returns no `BatchResult`. -/
theorem c8_callback_error_aborts {α ρ : Type} (items : List α) (chunkSize : Nat)
    (attemptsF : Nat → Nat → Except (List Char) (List ρ)) (retries retryDelay : Nat)
    (durs : Nat → Nat) (totalDur : Nat) (e : List Char) (rest : List Nat)
    (hne : items ≠ []) :
    processBatchWithOrder items chunkSize attemptsF retries retryDelay durs totalDur
      (fun _ => Except.error e) (0 :: rest) = Except.error e := by
  obtain ⟨r, t, hE⟩ : ∃ r t,
      execChunks items chunkSize attemptsF retries retryDelay durs = r :: t := by
    cases hI : items with
    | nil => exact absurd hI hne
    | cons x xs =>
        cases hEc : execChunks (x :: xs) chunkSize attemptsF retries retryDelay durs with
        | nil =>
            exfalso
            have hL := execChunks_length (x :: xs) chunkSize attemptsF retries retryDelay durs
            rw [hEc, chunkList_cons] at hL
            simp at hL
        | cons r t => exact ⟨r, t, rfl⟩
  unfold processBatchWithOrder
  rw [hE, List.filterMap_cons]
  simp only [List.getElem?_cons_zero]
  rw [aggRun_cons_error]

/-- C8 amended witness: concrete two-item job with a throwing callback. -/
theorem c8_callback_error_aborts_witness :
    processBatchWithOrder ([1, 2] : List Nat) 2
        (fun _ _ => (Except.ok [0, 0] : Except (List Char) (List Nat))) 2 1000 (fun _ => 1) 0
        (fun _ => Except.error errCallback) [0] = Except.error errCallback :=
  c8_callback_error_aborts [1, 2] 2
    (fun _ _ => (Except.ok [0, 0] : Except (List Char) (List Nat))) 2 1000 (fun _ => 1) 0
    errCallback [] (by decide)

theorem containsStr_iff_infix (pat : List Char) :
    ∀ l : List Char, containsStr pat l = true ↔ pat <:+: l := by
  intro l
  induction l with
  | nil => simp [containsStr, List.isPrefixOf_iff_prefix, List.prefix_nil, List.infix_nil]
  | cons c rest ih =>
      simp only [containsStr, Bool.or_eq_true, List.isPrefixOf_iff_prefix, ih,
        List.infix_cons_iff]

/-- C9: `isRetryableError` is a deterministic function of the error message
alone, and it classifies a message as retryable iff its lower-cased form
contains one of the transient-condition keywords — deadlock (contention),
timeout, connection (loss), "too many connections", or
"serialization failure" (write conflict); every other message is terminal. -/
theorem c9_classification (m1 m2 : List Char) (h : m1 = m2) :
    isRetryableError m1 = isRetryableError m2 ∧
    (isRetryableError m1 = true ↔
      (kwDeadlock <:+: toLowerMsg m1 ∨ kwTimeout <:+: toLowerMsg m1 ∨
       kwConnection <:+: toLowerMsg m1 ∨ kwTooMany <:+: toLowerMsg m1 ∨
       kwSerialization <:+: toLowerMsg m1)) := by
  subst h
  refine ⟨rfl, ?_⟩
  simp only [isRetryableError, Bool.or_eq_true, containsStr_iff_infix]
  tauto

/-- C9 witness: the classification applied to the message "deadlock". -/
theorem c9_classification_witness :
    isRetryableError kwDeadlock = isRetryableError kwDeadlock ∧
    (isRetryableError kwDeadlock = true ↔
      (kwDeadlock <:+: toLowerMsg kwDeadlock ∨ kwTimeout <:+: toLowerMsg kwDeadlock ∨
       kwConnection <:+: toLowerMsg kwDeadlock ∨ kwTooMany <:+: toLowerMsg kwDeadlock ∨
       kwSerialization <:+: toLowerMsg kwDeadlock)) :=
  c9_classification kwDeadlock kwDeadlock rfl

theorem fill_concat (C : Nat) : ∀ (queue active adm : List Nat),
    (fill C queue active adm).admitted ++ (fill C queue active adm).queue = adm ++ queue := by
  intro queue
  induction queue with
  | nil => intro active adm; simp [fill]
  | cons q qs ih =>
      intro active adm
      rw [fill]
      by_cases h : active.length < C
      · rw [if_pos h, ih]
        simp
      · rw [if_neg h]

theorem fill_active_le (C : Nat) : ∀ (queue active adm : List Nat), active.length ≤ C →
    (fill C queue active adm).active.length ≤ C := by
  intro queue
  induction queue with
  | nil => intro active adm h; simpa [fill] using h
  | cons q qs ih =>
      intro active adm h
      rw [fill]
      by_cases hlt : active.length < C
      · rw [if_pos hlt]
        exact ih (active ++ [q]) (adm ++ [q]) (by simp; omega)
      · rw [if_neg hlt]
        exact h

theorem fill_active_mono (C : Nat) : ∀ (queue active adm : List Nat),
    active.length ≤ (fill C queue active adm).active.length := by
  intro queue
  induction queue with
  | nil => intro active adm; simp [fill]
  | cons q qs ih =>
      intro active adm
      rw [fill]
      by_cases hlt : active.length < C
      · rw [if_pos hlt]
        have := ih (active ++ [q]) (adm ++ [q])
        simp at this
        omega
      · rw [if_neg hlt]

theorem fill_admits (C : Nat) : ∀ (queue active adm : List Nat), queue ≠ [] →
    active.length < C → active.length < (fill C queue active adm).active.length := by
  intro queue
  cases queue with
  | nil => intro active adm h; exact absurd rfl h
  | cons q qs =>
      intro active adm _ hlt
      rw [fill, if_pos hlt]
      have := fill_active_mono C qs (active ++ [q]) (adm ++ [q])
      simp at this
      omega

theorem removalLoop_id (active : List Nat) (settled : Nat → Bool) :
    removalLoop active settled = active := by
  simp [removalLoop, settledProbe]

theorem schedLoopStep_eq_fill (C : Nat) (settled : Nat → Bool) (st : SchedState) :
    schedLoopStep C settled st = fillSt C st := by
  rw [schedLoopStep, removalLoop_id]

theorem fill_post (C : Nat) : ∀ (queue active adm : List Nat),
    (fill C queue active adm).queue = [] ∨ C ≤ (fill C queue active adm).active.length := by
  intro queue
  induction queue with
  | nil => intro active adm; left; simp [fill]
  | cons q qs ih =>
      intro active adm
      rw [fill]
      by_cases h : active.length < C
      · rw [if_pos h]
        exact ih (active ++ [q]) (adm ++ [q])
      · rw [if_neg h]
        right
        show C ≤ active.length
        omega

theorem fill_of_done (C : Nat) (queue active adm : List Nat)
    (h : queue = [] ∨ C ≤ active.length) :
    fill C queue active adm = ⟨queue, active, adm⟩ := by
  cases queue with
  | nil => simp [fill]
  | cons q qs =>
      rcases h with h | h
      · exact absurd h (by simp)
      · rw [fill, if_neg (by omega)]

theorem fillSt_idem (C : Nat) (st : SchedState) : fillSt C (fillSt C st) = fillSt C st :=
  fill_of_done C (fillSt C st).queue (fillSt C st).active (fillSt C st).admitted
    (fill_post C st.queue st.active st.admitted)

theorem fill_balance (C : Nat) : ∀ (queue active adm : List Nat),
    (fill C queue active adm).admitted.length + active.length =
      adm.length + (fill C queue active adm).active.length := by
  intro queue
  induction queue with
  | nil => intro active adm; simp [fill]
  | cons q qs ih =>
      intro active adm
      rw [fill]
      by_cases h : active.length < C
      · rw [if_pos h]
        have := ih (active ++ [q]) (adm ++ [q])
        simp only [List.length_append, List.length_singleton] at this
        omega
      · rw [if_neg h]

theorem schedRun_fixpoint (C : Nat) (settled : Nat → Bool) (n : Nat) :
    ∀ k : Nat, 1 ≤ k → schedRun C settled n k = fillSt C (initSched n) := by
  intro k
  induction k with
  | zero => intro h; omega
  | succ k ih =>
      intro _
      rw [schedRun, schedLoopStep_eq_fill]
      cases Nat.eq_zero_or_pos k with
      | inl h0 => subst h0; rfl
      | inr hpos => rw [ih hpos, fillSt_idem]

/-- C1: no `BatchResult` is ever returned for a nonempty job, so its
claimed properties cannot hold of one.  After every iteration of the outer
scheduling loop the guard at line 120 (`processingQueue.length > 0 ||
activePromises.length > 0`) still holds: the settled-promise probe at
lines 169-172 always yields `'pending'`, the splice at line 174 never
runs, `activePromises` never shrinks, and the return at lines 180-188 is
unreachable — regardless of which chunk promises have actually settled.
(The conservation law the claim describes does hold of the counts the
engine folds: see `processChunk_sum` and `aggRun_sums`; what fails is the
existence of the returned `BatchResult`.) -/
theorem c1_no_batchresult_for_nonempty (C n : Nat) (hC : 1 ≤ C) (hn : 1 ≤ n)
    (settled : Nat → Bool) (k : Nat) :
    (schedRun C settled n k).queue ≠ [] ∨ (schedRun C settled n k).active ≠ [] := by
  cases k with
  | zero =>
      left
      show List.range n ≠ []
      simp [List.range_eq_nil]
      omega
  | succ k =>
      right
      rw [schedRun_fixpoint C settled n (k + 1) (by omega)]
      have hadm : ([] : List Nat).length < (fillSt C (initSched n)).active.length :=
        fill_admits C (List.range n) [] [] (by simp [List.range_eq_nil]; omega)
          (by simpa using hC)
      intro hnil
      rw [hnil] at hadm
      simp at hadm

/-- C1 witness: a one-item job under the default concurrency 3; after two
loop iterations (with the chunk's promise long settled) the loop guard
still holds. -/
theorem c1_no_batchresult_for_nonempty_witness :
    (schedRun 3 (fun _ => true) 1 2).queue ≠ [] ∨
    (schedRun 3 (fun _ => true) 1 2).active ≠ [] :=
  c1_no_batchresult_for_nonempty 3 1 (by decide) (by decide) (fun _ => true) 2

/-- C10: the program never frees a concurrency slot.  The settled-promise
probe at lines 169-172 always yields `'pending'`, so the removal loop
removes nothing and the scheduler reaches the `fill` fixpoint after its
first iteration and stays there forever, regardless of which chunks have
settled: at most `C` chunks are ever admitted (in index order — the
admission trace followed by the pending queue is always the original index
list), the active set never shrinks and never empties (the loop never
exits), and — contrary to the claim — a chunk's completion never causes
another admission: the state after any `k ≥ 1` iterations is the same.
The bound half of the claim does hold: never more than `C` in flight. -/
theorem c10_slots_never_freed (C n : Nat) (hC : 1 ≤ C) (hn : 1 ≤ n)
    (settled : Nat → Bool) (k : Nat) (hk : 1 ≤ k) :
    schedRun C settled n k = fillSt C (initSched n) ∧
    (schedRun C settled n k).active.length ≤ C ∧
    (schedRun C settled n k).admitted.length ≤ C ∧
    (schedRun C settled n k).admitted ++ (schedRun C settled n k).queue = List.range n ∧
    (schedRun C settled n k).active ≠ [] := by
  have hfix := schedRun_fixpoint C settled n k hk
  rw [hfix]
  have hle : (fillSt C (initSched n)).active.length ≤ C :=
    fill_active_le C (List.range n) [] [] (by simp)
  have hbal : (fillSt C (initSched n)).admitted.length + ([] : List Nat).length =
      ([] : List Nat).length + (fillSt C (initSched n)).active.length :=
    fill_balance C (List.range n) [] []
  simp only [List.length_nil, Nat.add_zero, Nat.zero_add] at hbal
  have hadm : ([] : List Nat).length < (fillSt C (initSched n)).active.length :=
    fill_admits C (List.range n) [] [] (by simp [List.range_eq_nil]; omega)
      (by simpa using hC)
  refine ⟨rfl, hle, by omega, ?_, ?_⟩
  · have hcc : (fillSt C (initSched n)).admitted ++ (fillSt C (initSched n)).queue =
        ([] : List Nat) ++ List.range n :=
      fill_concat C (List.range n) [] []
    simpa using hcc
  · intro hnil
    rw [hnil] at hadm
    simp at hadm

/-- C10 witness: concurrency 2 with 5 chunks, every chunk promise settled;
after three iterations the scheduler is still at the first-fill fixpoint
with only chunks 0 and 1 admitted. -/
theorem c10_slots_never_freed_witness :
    schedRun 2 (fun _ => true) 5 3 = fillSt 2 (initSched 5) ∧
    (schedRun 2 (fun _ => true) 5 3).active.length ≤ 2 ∧
    (schedRun 2 (fun _ => true) 5 3).admitted.length ≤ 2 ∧
    (schedRun 2 (fun _ => true) 5 3).admitted ++ (schedRun 2 (fun _ => true) 5 3).queue =
      List.range 5 ∧
    (schedRun 2 (fun _ => true) 5 3).active ≠ [] :=
  c10_slots_never_freed 2 5 (by decide) (by decide) (fun _ => true) 3 (by decide)

end DafcBatch
